import Mathlib

set_option maxRecDepth 100000

/-!
Shallow embedding of the GitHub Skills validation core (src/js/main.js,
module api.js): fetchUserReadme, checkCompletion, validateUser and
validateUsers.  Network effects are modelled by an explicit environment
mapping each outgoing request to either a thrown exception (Except.error
with the exception message) or an HTTP response.  Each operation also
returns the list of requests it issued, and the batch orchestrator
additionally returns the trace of batch slices, progress-callback
invocations and inter-batch delays, so that ordering and counting claims
can be stated.
-/

/-- Result status of validating one username; the JS strings are
"completed", "not-completed" and "error" (a closed set). -/
inductive Status where
  | completed
  | not_completed
  | error
deriving DecidableEq, Repr

/-- The per-username result object built by validateUser. -/
structure ValidationResult where
  username : String
  status : Status
  details : String
deriving DecidableEq, Repr

/-- Return object of fetchUserReadme: success flag with content, or the
error message (the JS object with a success flag and optional fields). -/
inductive FetchOutcome where
  | ok (content : String)
  | err (msg : String)
deriving DecidableEq, Repr

/-- One outgoing network request: the URL and the value of the
Authorization header when one is attached. -/
structure Request where
  url : String
  authHeader : Option String
deriving DecidableEq, Repr

/-- An HTTP response as seen by the code: numeric status, statusText,
the text body, and the result of parsing the body as JSON and projecting
the field named contents (Except.error models a thrown parse failure). -/
structure HttpResponse where
  status : Nat
  statusText : String
  body : String
  jsonContents : Except String String

/-- response.ok of the fetch API: status in the range 200..299. -/
def HttpResponse.ok (r : HttpResponse) : Bool :=
  decide (200 ≤ r.status) && decide (r.status < 300)

/-- The network environment: what fetch does on each request.
Except.error m models fetch throwing an exception with message m. -/
structure FetchEnv where
  fetch : Request → Except String HttpResponse

/-- U+0027, written via its code point. -/
def apostrophe : Char := Char.ofNat 39

/-- The trim method on strings: remove leading and trailing whitespace
(modelled on character lists so that it computes by reduction). -/
def jsTrim (s : String) : String :=
  String.mk (((s.toList.dropWhile Char.isWhitespace).reverse.dropWhile
    Char.isWhitespace).reverse)

/-- const COMPLETION_PHRASE of api.js. -/
def COMPLETION_PHRASE : String :=
  "You" ++ String.singleton apostrophe ++ "ve successfully completed this exercise!"

/-- const RATE_LIMIT_ERROR of api.js. -/
def RATE_LIMIT_ERROR : String := "API rate limit exceeded"

/-- const CORS_PROXY of api.js. -/
def CORS_PROXY : String := "https://api.allorigins.win/get?url="

/-- The raw README URL built by fetchUserReadme from the username. -/
def readmeUrl (username : String) : String :=
  "https://raw.githubusercontent.com/" ++ username ++
    "/skills-getting-started-with-github-copilot/main/README.md"

/-- Upper-case hexadecimal digit for n < 16. -/
def uriHexDigit (n : Nat) : Char :=
  if n < 10 then Char.ofNat (48 + n) else Char.ofNat (55 + n)

/-- Percent-encoding of one byte value. -/
def percentEncode (b : Nat) : String :=
  String.mk [Char.ofNat 37, uriHexDigit (b / 16), uriHexDigit (b % 16)]

/-- UTF-8 byte sequence of a code point. -/
def utf8Encode (n : Nat) : List Nat :=
  if n < 128 then [n]
  else if n < 2048 then [192 + n / 64, 128 + n % 64]
  else if n < 65536 then [224 + n / 4096, 128 + (n / 64) % 64, 128 + n % 64]
  else [240 + n / 262144, 128 + (n / 4096) % 64, 128 + (n / 64) % 64, 128 + n % 64]

/-- Characters left unescaped by the encodeURIComponent builtin:
alphanumeric and - _ . ! ~ * apostrophe ( ). -/
def uriUnreserved (c : Char) : Bool :=
  c.isAlphanum || c == Char.ofNat 45 || c == Char.ofNat 95 || c == Char.ofNat 46 ||
    c == Char.ofNat 33 || c == Char.ofNat 126 || c == Char.ofNat 42 ||
    c == apostrophe || c == Char.ofNat 40 || c == Char.ofNat 41

/-- The encodeURIComponent builtin used when building the proxy URL. -/
def encodeURIComponent (s : String) : String :=
  String.join (s.toList.map (fun c =>
    if uriUnreserved c then String.singleton c
    else String.join ((utf8Encode c.toNat).map percentEncode)))

/-- JS truthiness of the token argument (null or the empty string are
falsy; any other string is truthy). -/
def tokenTruthy : Option String → Bool
  | none => false
  | some t => !(t == "")

/-- The Authorization header attached by fetchUserReadme: present with
value "token " ++ t exactly when the token is truthy. -/
def authHeaderFor : Option String → Option String
  | none => none
  | some t => if t == "" then none else some ("token " ++ t)

/-- The direct request fetchUserReadme issues first. -/
def directRequest (username : String) (token : Option String) : Request :=
  { url := readmeUrl username, authHeader := authHeaderFor token }

/-- The fallback request through the CORS proxy; no headers are passed. -/
def proxyRequest (username : String) : Request :=
  { url := CORS_PROXY ++ encodeURIComponent (readmeUrl username), authHeader := none }

/-- fetchUserReadme of api.js.  Returns the FetchOutcome together with
the list of requests issued, in order.  A throw inside the try block is
caught by the catch and converted into the err outcome. -/
def fetchUserReadme (env : FetchEnv) (username : String) (token : Option String) :
    FetchOutcome × List Request :=
  let dreq := directRequest username token
  match env.fetch dreq with
  | Except.error e => (FetchOutcome.err e, [dreq])
  | Except.ok response =>
    if !response.ok then
      if response.status == 403 then
        (FetchOutcome.err RATE_LIMIT_ERROR, [dreq])
      else if response.status == 404 then
        (FetchOutcome.err "Repository or README not found", [dreq])
      else
        let preq := proxyRequest username
        match env.fetch preq with
        | Except.error e => (FetchOutcome.err e, [dreq, preq])
        | Except.ok response2 =>
          if !response2.ok then
            (FetchOutcome.err ("HTTP " ++ toString response2.status ++ ": " ++
              response2.statusText), [dreq, preq])
          else
            match response2.jsonContents with
            | Except.error e => (FetchOutcome.err e, [dreq, preq])
            | Except.ok contents => (FetchOutcome.ok contents, [dreq, preq])
    else
      (FetchOutcome.ok response.body, [dreq])

/-- Decidable substring test on character lists, the semantics of the
String.prototype contains test used by checkCompletion. -/
def charsContain (pat : List Char) : List Char → Bool
  | [] => pat.isEmpty
  | a :: rest => pat.isPrefixOf (a :: rest) || charsContain pat rest

/-- checkCompletion of api.js: content contains COMPLETION_PHRASE. -/
def checkCompletion (content : String) : Bool :=
  charsContain COMPLETION_PHRASE.toList content.toList

/-- The ValidationResult built on the content-check path. -/
def contentResult (username : String) (content : String) : ValidationResult :=
  { username := username,
    status := if checkCompletion content then Status.completed else Status.not_completed,
    details := if checkCompletion content then "Exercise completed successfully"
               else "Completion phrase not found" }

/-- validateUser of api.js, with the issued-request trace threaded
through.  An empty (after trimming) username short-circuits before any
request is made. -/
def validateUser (env : FetchEnv) (username : String) (token : Option String) :
    ValidationResult × List Request :=
  let trimmedUsername := jsTrim username
  if trimmedUsername == "" then
    ({ username := trimmedUsername, status := Status.error,
       details := "Invalid username" }, [])
  else
    match fetchUserReadme env trimmedUsername token with
    | (FetchOutcome.err e, reqs) =>
      ({ username := trimmedUsername, status := Status.error, details := e }, reqs)
    | (FetchOutcome.ok content, reqs) =>
      (contentResult trimmedUsername content, reqs)

/-- Batch size of validateUsers: token ? 10 : 5. -/
def batchSize (token : Option String) : Nat :=
  if tokenTruthy token then 10 else 5

/-- Inter-batch delay of validateUsers: token ? 100 : 500 (ms). -/
def delayMs (token : Option String) : Nat :=
  if tokenTruthy token then 100 else 500

/-- Observable events of one validateUsers run, in order: the batch
slice taken at the top of each loop iteration, each invocation of the
progress callback with its two arguments, and each inter-batch delay. -/
inductive Event where
  | batch (names : List String)
  | progress (current : Nat) (total : Nat)
  | delayEvt (ms : Nat)
deriving DecidableEq, Repr

/-- The loop of validateUsers as a recursion on the unprocessed suffix
of the username list.  done is the number of results accumulated so far
(results.length before this iteration); fuel bounds the number of
iterations and is set to the list length, which suffices because every
iteration consumes at least one username.  Returns the results, the
event trace and the requests issued. -/
def validateUsersGo (env : FetchEnv) (token : Option String) (hasCb : Bool)
    (total : Nat) : Nat → List String → Nat →
    List ValidationResult × List Event × List Request
  | 0, _, _ => ([], [], [])
  | _ + 1, [], _ => ([], [], [])
  | fuel + 1, u :: rest, done =>
    let bs := batchSize token
    let batch := (u :: rest).take bs
    let pairs := batch.map (fun name => validateUser env name token)
    let batchResults := pairs.map Prod.fst
    let batchRequests := (pairs.map Prod.snd).flatten
    let done2 := done + batchResults.length
    let tail := validateUsersGo env token hasCb total fuel ((u :: rest).drop bs) done2
    (batchResults ++ tail.1,
     Event.batch batch ::
       ((if hasCb then [Event.progress done2 total] else []) ++
        (if bs < (u :: rest).length then [Event.delayEvt (delayMs token)] else []) ++
        tail.2.1),
     batchRequests ++ tail.2.2)

/-- validateUsers of api.js.  hasCb records whether a progress callback
was supplied. -/
def validateUsers (env : FetchEnv) (usernames : List String)
    (token : Option String) (hasCb : Bool) :
    List ValidationResult × List Event × List Request :=
  validateUsersGo env token hasCb usernames.length usernames.length usernames 0

/-- The batch slices recorded in an event trace, in order. -/
def batchesIn : List Event → List (List String)
  | [] => []
  | Event.batch b :: rest => b :: batchesIn rest
  | _ :: rest => batchesIn rest

/-- First arguments of the progress-callback invocations, in order. -/
def progressCurrents : List Event → List Nat
  | [] => []
  | Event.progress c _ :: rest => c :: progressCurrents rest
  | _ :: rest => progressCurrents rest

/-- Second arguments of the progress-callback invocations, in order. -/
def progressTotals : List Event → List Nat
  | [] => []
  | Event.progress _ t :: rest => t :: progressTotals rest
  | _ :: rest => progressTotals rest

/-- Checks that every delay event in the trace immediately follows a
progress event. -/
def chkDelays : List Event → Bool
  | [] => true
  | Event.delayEvt _ :: _ => false
  | Event.progress _ _ :: Event.delayEvt _ :: rest => chkDelays rest
  | _ :: rest => chkDelays rest

/-- An environment in which every fetch throws with message network. -/
def envErr : FetchEnv := { fetch := fun _ => Except.error "network" }

/-- An environment replying 403 Forbidden to every request. -/
def env403 : FetchEnv :=
  { fetch := fun _ =>
      Except.ok { status := 403, statusText := "Forbidden", body := "",
                  jsonContents := Except.error "bad json" } }

/-- An environment where the direct README request for user alice gets
HTTP 500 and every other request (in particular the proxy request)
succeeds with a fixed body. -/
def envFallback : FetchEnv :=
  { fetch := fun req =>
      if req.url == readmeUrl "alice" then
        Except.ok { status := 500, statusText := "Internal Server Error",
                    body := "", jsonContents := Except.error "bad json" }
      else
        Except.ok { status := 200, statusText := "OK", body := "plain",
                    jsonContents := Except.ok "proxy body" } }

/-- A second environment with the same behaviour as envErr, used to
state determinism across two runs against the same provider behaviour. -/
def envErrTwin : FetchEnv := { fetch := fun _ => Except.error "network" }

/-- An environment whose direct response succeeds with the completion
marker as body. -/
def envOk : FetchEnv :=
  { fetch := fun _ =>
      Except.ok { status := 200, statusText := "OK", body := COMPLETION_PHRASE,
                  jsonContents := Except.ok COMPLETION_PHRASE } }

/-- The completion marker with its first letter in lower case, used to
exhibit case sensitivity of the content check. -/
def lowercaseMarker : String :=
  "you" ++ String.singleton apostrophe ++ "ve successfully completed this exercise!"

theorem batchSize_pos (token : Option String) : 0 < batchSize token := by
  unfold batchSize; split <;> decide

theorem validateUser_fst_username (env : FetchEnv) (u : String) (t : Option String) :
    ((validateUser env u t).1).username = jsTrim u := by
  simp only [validateUser]
  split
  · rfl
  · split <;> rfl

theorem go_results (env : FetchEnv) (token : Option String) (hasCb : Bool) (total : Nat) :
    ∀ fuel rem done, rem.length ≤ fuel →
      (validateUsersGo env token hasCb total fuel rem done).1 =
        rem.map (fun u => (validateUser env u token).1) := by
  intro fuel
  induction fuel with
  | zero =>
    intro rem done h
    have : rem = [] := List.eq_nil_of_length_eq_zero (Nat.le_zero.mp h)
    subst this; rfl
  | succ fuel ih =>
    intro rem done h
    match rem with
    | [] => rfl
    | u :: rest =>
      have hbs := batchSize_pos token
      have hlen : ((u :: rest).drop (batchSize token)).length ≤ fuel := by
        simp only [List.length_drop, List.length_cons]
        simp only [List.length_cons] at h
        omega
      simp only [validateUsersGo]
      rw [ih _ _ hlen]
      rw [List.map_map]
      have hc : (Prod.fst ∘ fun name => validateUser env name token) =
          (fun u => (validateUser env u token).1) := rfl
      rw [hc, ← List.map_append, List.take_append_drop]

theorem go_nil (env : FetchEnv) (token : Option String) (hasCb : Bool) (total fuel done : Nat) :
    validateUsersGo env token hasCb total fuel [] done = ([], [], []) := by
  cases fuel <;> rfl

theorem go_cons_events (env : FetchEnv) (token : Option String) (hasCb : Bool)
    (total fuel done : Nat) (u : String) (rest : List String) :
    (validateUsersGo env token hasCb total (fuel + 1) (u :: rest) done).2.1 =
      Event.batch ((u :: rest).take (batchSize token)) ::
        ((if hasCb then
            [Event.progress (done + ((u :: rest).take (batchSize token)).length) total]
          else []) ++
         (if batchSize token < (u :: rest).length then [Event.delayEvt (delayMs token)]
          else []) ++
         (validateUsersGo env token hasCb total fuel ((u :: rest).drop (batchSize token))
            (done + ((u :: rest).take (batchSize token)).length)).2.1) := by
  simp only [validateUsersGo, List.length_map]

theorem batchesIn_progress_if (b : Bool) (c t : Nat) (l : List Event) :
    batchesIn ((if b then [Event.progress c t] else []) ++ l) = batchesIn l := by
  cases b <;> simp [batchesIn]

theorem batchesIn_delay_if (P : Prop) [Decidable P] (d : Nat) (l : List Event) :
    batchesIn ((if P then [Event.delayEvt d] else []) ++ l) = batchesIn l := by
  split <;> simp [batchesIn]

theorem go_batchesIn_cons (env : FetchEnv) (token : Option String) (hasCb : Bool)
    (total fuel done : Nat) (u : String) (rest : List String) :
    batchesIn (validateUsersGo env token hasCb total (fuel + 1) (u :: rest) done).2.1 =
      (u :: rest).take (batchSize token) ::
        batchesIn (validateUsersGo env token hasCb total fuel
          ((u :: rest).drop (batchSize token))
          (done + ((u :: rest).take (batchSize token)).length)).2.1 := by
  rw [go_cons_events]
  simp only [batchesIn, List.append_assoc]
  rw [batchesIn_progress_if, batchesIn_delay_if]

theorem go_batches_flatten (env : FetchEnv) (token : Option String) (hasCb : Bool)
    (total : Nat) : ∀ fuel rem done, rem.length ≤ fuel →
      (batchesIn (validateUsersGo env token hasCb total fuel rem done).2.1).flatten = rem := by
  intro fuel
  induction fuel with
  | zero =>
    intro rem done h
    have : rem = [] := List.eq_nil_of_length_eq_zero (Nat.le_zero.mp h)
    subst this; rfl
  | succ fuel ih =>
    intro rem done h
    match rem with
    | [] => rfl
    | u :: rest =>
      have hbs := batchSize_pos token
      have hlen : ((u :: rest).drop (batchSize token)).length ≤ fuel := by
        simp only [List.length_drop, List.length_cons]
        simp only [List.length_cons] at h
        omega
      rw [go_batchesIn_cons]
      simp only [List.flatten_cons]
      rw [ih _ _ hlen, List.take_append_drop]

theorem go_batchesIn_ne (env : FetchEnv) (token : Option String) (hasCb : Bool)
    (total : Nat) (fuel : Nat) (rem : List String) (done : Nat)
    (hne : rem ≠ []) (h : rem.length ≤ fuel) :
    batchesIn (validateUsersGo env token hasCb total fuel rem done).2.1 ≠ [] := by
  match rem, hne with
  | u :: rest, _ =>
    match fuel, h with
    | fuel + 1, _ =>
      rw [go_batchesIn_cons]
      simp

theorem go_batches_mem (env : FetchEnv) (token : Option String) (hasCb : Bool)
    (total : Nat) : ∀ fuel rem done, rem.length ≤ fuel →
      ∀ b ∈ batchesIn (validateUsersGo env token hasCb total fuel rem done).2.1,
        b ≠ [] ∧ b.length ≤ batchSize token := by
  intro fuel
  induction fuel with
  | zero =>
    intro rem done h
    have : rem = [] := List.eq_nil_of_length_eq_zero (Nat.le_zero.mp h)
    subst this; intro b hb; simp [batchesIn] at hb
  | succ fuel ih =>
    intro rem done h
    match rem with
    | [] => intro b hb; simp [go_nil, batchesIn] at hb
    | u :: rest =>
      have hbs := batchSize_pos token
      have hlen : ((u :: rest).drop (batchSize token)).length ≤ fuel := by
        simp only [List.length_drop, List.length_cons]
        simp only [List.length_cons] at h
        omega
      rw [go_batchesIn_cons]
      intro b hb
      rcases List.mem_cons.mp hb with hb | hb
      · subst hb
        constructor
        · exact List.length_pos.mp (by simp only [List.length_take, List.length_cons]; omega)
        · simp only [List.length_take]
          exact Nat.min_le_left _ _
      · exact ih _ _ hlen b hb

theorem go_batches_dropLast (env : FetchEnv) (token : Option String) (hasCb : Bool)
    (total : Nat) : ∀ fuel rem done, rem.length ≤ fuel →
      ∀ b ∈ (batchesIn (validateUsersGo env token hasCb total fuel rem done).2.1).dropLast,
        b.length = batchSize token := by
  intro fuel
  induction fuel with
  | zero =>
    intro rem done h
    have : rem = [] := List.eq_nil_of_length_eq_zero (Nat.le_zero.mp h)
    subst this; intro b hb; simp [batchesIn] at hb
  | succ fuel ih =>
    intro rem done h
    match rem with
    | [] => intro b hb; simp [go_nil, batchesIn] at hb
    | u :: rest =>
      have hbs := batchSize_pos token
      have hlen : ((u :: rest).drop (batchSize token)).length ≤ fuel := by
        simp only [List.length_drop, List.length_cons]
        simp only [List.length_cons] at h
        omega
      rw [go_batchesIn_cons]
      by_cases hrest : (u :: rest).drop (batchSize token) = []
      · rw [hrest, go_nil]
        intro b hb; simp [batchesIn] at hb
      · have hne := go_batchesIn_ne env token hasCb total fuel _
          (done + ((u :: rest).take (batchSize token)).length) hrest hlen
        intro b hb
        rw [List.dropLast_cons_of_ne_nil hne] at hb
        rcases List.mem_cons.mp hb with hb | hb
        · subst hb
          have hlt : batchSize token ≤ (u :: rest).length := by
            by_contra hcon
            exact hrest (List.drop_eq_nil_of_le (by omega))
          simp only [List.length_take, List.length_cons]
          simp only [List.length_cons] at hlt
          omega
        · exact ih _ _ hlen b hb

theorem progressCurrents_append (l₁ l₂ : List Event) :
    progressCurrents (l₁ ++ l₂) = progressCurrents l₁ ++ progressCurrents l₂ := by
  induction l₁ with
  | nil => rfl
  | cons e t iht => cases e <;> simp [progressCurrents, iht]

theorem progressTotals_append (l₁ l₂ : List Event) :
    progressTotals (l₁ ++ l₂) = progressTotals l₁ ++ progressTotals l₂ := by
  induction l₁ with
  | nil => rfl
  | cons e t iht => cases e <;> simp [progressTotals, iht]

theorem progressCurrents_delay_if (P : Prop) [Decidable P] (d : Nat) :
    progressCurrents (if P then [Event.delayEvt d] else []) = [] := by
  split <;> rfl

theorem progressTotals_delay_if (P : Prop) [Decidable P] (d : Nat) :
    progressTotals (if P then [Event.delayEvt d] else []) = [] := by
  split <;> rfl

theorem go_progressCurrents_cons (env : FetchEnv) (token : Option String)
    (total fuel done : Nat) (u : String) (rest : List String) :
    progressCurrents (validateUsersGo env token true total (fuel + 1) (u :: rest) done).2.1 =
      (done + ((u :: rest).take (batchSize token)).length) ::
        progressCurrents (validateUsersGo env token true total fuel
          ((u :: rest).drop (batchSize token))
          (done + ((u :: rest).take (batchSize token)).length)).2.1 := by
  rw [go_cons_events]
  simp only [if_true, List.append_eq, List.cons_append, List.nil_append, progressCurrents,
    progressCurrents_append, progressCurrents_delay_if, List.append_nil]

theorem go_progressTotals_cons (env : FetchEnv) (token : Option String)
    (total fuel done : Nat) (u : String) (rest : List String) :
    progressTotals (validateUsersGo env token true total (fuel + 1) (u :: rest) done).2.1 =
      total :: progressTotals (validateUsersGo env token true total fuel
          ((u :: rest).drop (batchSize token))
          (done + ((u :: rest).take (batchSize token)).length)).2.1 := by
  rw [go_cons_events]
  simp only [if_true, List.append_eq, List.cons_append, List.nil_append, progressTotals,
    progressTotals_append, progressTotals_delay_if, List.append_nil]

theorem go_progressCurrents_mem (env : FetchEnv) (token : Option String) (total : Nat) :
    ∀ fuel rem done, rem.length ≤ fuel →
      ∀ c ∈ progressCurrents (validateUsersGo env token true total fuel rem done).2.1,
        done < c ∧ c ≤ done + rem.length := by
  intro fuel
  induction fuel with
  | zero =>
    intro rem done h
    have : rem = [] := List.eq_nil_of_length_eq_zero (Nat.le_zero.mp h)
    subst this; intro c hc; simp [progressCurrents] at hc
  | succ fuel ih =>
    intro rem done h
    match rem with
    | [] => intro c hc; simp [go_nil, progressCurrents] at hc
    | u :: rest =>
      have hbs := batchSize_pos token
      have hlen : ((u :: rest).drop (batchSize token)).length ≤ fuel := by
        simp only [List.length_drop, List.length_cons]
        simp only [List.length_cons] at h
        omega
      rw [go_progressCurrents_cons]
      intro c hc
      rcases List.mem_cons.mp hc with hc | hc
      · subst hc
        simp only [List.length_take, List.length_cons]
        omega
      · have := ih _ _ hlen c hc
        simp only [List.length_take, List.length_drop, List.length_cons] at this ⊢
        omega

theorem go_progressCurrents_ne (env : FetchEnv) (token : Option String) (total : Nat)
    (fuel : Nat) (rem : List String) (done : Nat) (hne : rem ≠ []) (h : rem.length ≤ fuel) :
    progressCurrents (validateUsersGo env token true total fuel rem done).2.1 ≠ [] := by
  match rem, hne with
  | u :: rest, _ =>
    match fuel, h with
    | fuel + 1, _ =>
      rw [go_progressCurrents_cons]
      simp

theorem go_progressCurrents_pairwise (env : FetchEnv) (token : Option String) (total : Nat) :
    ∀ fuel rem done, rem.length ≤ fuel →
      (progressCurrents (validateUsersGo env token true total fuel rem done).2.1).Pairwise
        (· < ·) := by
  intro fuel
  induction fuel with
  | zero =>
    intro rem done h
    have : rem = [] := List.eq_nil_of_length_eq_zero (Nat.le_zero.mp h)
    subst this; simp [progressCurrents]
  | succ fuel ih =>
    intro rem done h
    match rem with
    | [] => simp [go_nil, progressCurrents]
    | u :: rest =>
      have hbs := batchSize_pos token
      have hlen : ((u :: rest).drop (batchSize token)).length ≤ fuel := by
        simp only [List.length_drop, List.length_cons]
        simp only [List.length_cons] at h
        omega
      rw [go_progressCurrents_cons]
      rw [List.pairwise_cons]
      constructor
      · intro c hc
        exact (go_progressCurrents_mem env token total fuel _ _ hlen c hc).1
      · exact ih _ _ hlen

theorem go_progressCurrents_getLast (env : FetchEnv) (token : Option String) (total : Nat) :
    ∀ fuel rem done, rem ≠ [] → rem.length ≤ fuel →
      (progressCurrents (validateUsersGo env token true total fuel rem done).2.1).getLast? =
        some (done + rem.length) := by
  intro fuel
  induction fuel with
  | zero =>
    intro rem done hne h
    exact absurd (List.eq_nil_of_length_eq_zero (Nat.le_zero.mp h)) hne
  | succ fuel ih =>
    intro rem done hne h
    match rem with
    | u :: rest =>
      have hbs := batchSize_pos token
      have hlen : ((u :: rest).drop (batchSize token)).length ≤ fuel := by
        simp only [List.length_drop, List.length_cons]
        simp only [List.length_cons] at h
        omega
      rw [go_progressCurrents_cons]
      by_cases hrest : (u :: rest).drop (batchSize token) = []
      · rw [hrest, go_nil]
        have hge : (u :: rest).length ≤ batchSize token := by
          by_contra hcon
          have h0 : ((u :: rest).drop (batchSize token)).length = 0 := by rw [hrest]; rfl
          simp only [List.length_drop, List.length_cons] at h0
          simp only [List.length_cons] at hcon
          omega
        have htake : ((u :: rest).take (batchSize token)).length = (u :: rest).length := by
          simp only [List.length_take, List.length_cons]
          simp only [List.length_cons] at hge
          omega
        simp only [progressCurrents, htake, List.getLast?_singleton]
      · have hpne := go_progressCurrents_ne env token total fuel _
          (done + ((u :: rest).take (batchSize token)).length) hrest hlen
        obtain ⟨y, t, hyt⟩ := List.exists_cons_of_ne_nil hpne
        rw [hyt, List.getLast?_cons_cons, ← hyt]
        rw [ih _ _ hrest hlen]
        have hlt : batchSize token ≤ (u :: rest).length := by
          by_contra hcon
          exact hrest (List.drop_eq_nil_of_le (by omega))
        simp only [List.length_take, List.length_drop, List.length_cons]
        simp only [List.length_cons] at hlt
        congr 1
        omega

theorem go_progressTotals_mem (env : FetchEnv) (token : Option String) (total : Nat) :
    ∀ fuel rem done,
      ∀ x ∈ progressTotals (validateUsersGo env token true total fuel rem done).2.1,
        x = total := by
  intro fuel
  induction fuel with
  | zero =>
    intro rem done x hx
    cases rem <;> simp [validateUsersGo, progressTotals] at hx
  | succ fuel ih =>
    intro rem done x hx
    match rem with
    | [] => simp [go_nil, progressTotals] at hx
    | u :: rest =>
      rw [go_progressTotals_cons] at hx
      rcases List.mem_cons.mp hx with hx | hx
      · exact hx
      · exact ih _ _ x hx

theorem go_progress_count (env : FetchEnv) (token : Option String) (total : Nat) :
    ∀ fuel rem done,
      (progressCurrents (validateUsersGo env token true total fuel rem done).2.1).length =
        (batchesIn (validateUsersGo env token true total fuel rem done).2.1).length := by
  intro fuel
  induction fuel with
  | zero =>
    intro rem done
    cases rem <;> simp [validateUsersGo, progressCurrents, batchesIn]
  | succ fuel ih =>
    intro rem done
    match rem with
    | [] => simp [go_nil, progressCurrents, batchesIn]
    | u :: rest =>
      rw [go_progressCurrents_cons, go_batchesIn_cons]
      simp only [List.length_cons]
      rw [ih]

theorem chkDelays_batch (b : List String) (l : List Event) :
    chkDelays (Event.batch b :: l) = chkDelays l := rfl

theorem chkDelays_progress_delay (c t d : Nat) (l : List Event) :
    chkDelays (Event.progress c t :: Event.delayEvt d :: l) = chkDelays l := rfl

theorem go_chkDelays (env : FetchEnv) (token : Option String) (total : Nat) :
    ∀ fuel rem done, rem.length ≤ fuel →
      chkDelays (validateUsersGo env token true total fuel rem done).2.1 = true := by
  intro fuel
  induction fuel with
  | zero =>
    intro rem done h
    have : rem = [] := List.eq_nil_of_length_eq_zero (Nat.le_zero.mp h)
    subst this; rfl
  | succ fuel ih =>
    intro rem done h
    match rem with
    | [] => rw [go_nil]; rfl
    | u :: rest =>
      have hbs := batchSize_pos token
      have hlen : ((u :: rest).drop (batchSize token)).length ≤ fuel := by
        simp only [List.length_drop, List.length_cons]
        simp only [List.length_cons] at h
        omega
      rw [go_cons_events]
      by_cases hlt : batchSize token < (u :: rest).length
      · rw [if_pos hlt]
        simp only [if_true, List.append_eq, List.cons_append, List.nil_append]
        rw [chkDelays_batch, chkDelays_progress_delay]
        exact ih _ _ hlen
      · rw [if_neg hlt]
        have hdr : (u :: rest).drop (batchSize token) = [] :=
          List.drop_eq_nil_of_le (Nat.le_of_not_lt hlt)
        rw [hdr, go_nil]
        simp only [if_true, List.append_eq, List.cons_append, List.nil_append,
          List.append_nil]
        rfl

theorem fetchUserReadme_direct_throw (env : FetchEnv) (username : String)
    (token : Option String) (m : String)
    (h : env.fetch (directRequest username token) = Except.error m) :
    fetchUserReadme env username token =
      (FetchOutcome.err m, [directRequest username token]) := by
  simp only [fetchUserReadme]
  rw [h]

theorem fetchUserReadme_direct_ok (env : FetchEnv) (username : String)
    (token : Option String) (r : HttpResponse)
    (h : env.fetch (directRequest username token) = Except.ok r) (hok : r.ok = true) :
    fetchUserReadme env username token =
      (FetchOutcome.ok r.body, [directRequest username token]) := by
  simp only [fetchUserReadme]
  rw [h]
  simp [hok]

theorem fetchUserReadme_403 (env : FetchEnv) (username : String)
    (token : Option String) (r : HttpResponse)
    (h : env.fetch (directRequest username token) = Except.ok r) (h403 : r.status = 403) :
    fetchUserReadme env username token =
      (FetchOutcome.err RATE_LIMIT_ERROR, [directRequest username token]) := by
  simp only [fetchUserReadme]
  rw [h]
  simp [HttpResponse.ok, h403]

theorem fetchUserReadme_404 (env : FetchEnv) (username : String)
    (token : Option String) (r : HttpResponse)
    (h : env.fetch (directRequest username token) = Except.ok r) (h404 : r.status = 404) :
    fetchUserReadme env username token =
      (FetchOutcome.err "Repository or README not found", [directRequest username token]) := by
  simp only [fetchUserReadme]
  rw [h]
  simp [HttpResponse.ok, h404]

theorem fetchUserReadme_fallback_throw (env : FetchEnv) (username : String)
    (token : Option String) (r : HttpResponse) (m : String)
    (h : env.fetch (directRequest username token) = Except.ok r) (hok : r.ok = false)
    (h403 : r.status ≠ 403) (h404 : r.status ≠ 404)
    (hp : env.fetch (proxyRequest username) = Except.error m) :
    fetchUserReadme env username token =
      (FetchOutcome.err m, [directRequest username token, proxyRequest username]) := by
  simp only [fetchUserReadme]
  rw [h]
  simp only [hok, Bool.not_false, if_true]
  rw [if_neg (by simp [h403]), if_neg (by simp [h404]), hp]

theorem fetchUserReadme_fallback_notOk (env : FetchEnv) (username : String)
    (token : Option String) (r r2 : HttpResponse)
    (h : env.fetch (directRequest username token) = Except.ok r) (hok : r.ok = false)
    (h403 : r.status ≠ 403) (h404 : r.status ≠ 404)
    (hp : env.fetch (proxyRequest username) = Except.ok r2) (hok2 : r2.ok = false) :
    fetchUserReadme env username token =
      (FetchOutcome.err ("HTTP " ++ toString r2.status ++ ": " ++ r2.statusText),
       [directRequest username token, proxyRequest username]) := by
  simp only [fetchUserReadme]
  rw [h]
  simp only [hok, Bool.not_false, if_true]
  rw [if_neg (by simp [h403]), if_neg (by simp [h404]), hp]
  simp [hok2]

theorem fetchUserReadme_fallback_badJson (env : FetchEnv) (username : String)
    (token : Option String) (r r2 : HttpResponse) (m : String)
    (h : env.fetch (directRequest username token) = Except.ok r) (hok : r.ok = false)
    (h403 : r.status ≠ 403) (h404 : r.status ≠ 404)
    (hp : env.fetch (proxyRequest username) = Except.ok r2) (hok2 : r2.ok = true)
    (hj : r2.jsonContents = Except.error m) :
    fetchUserReadme env username token =
      (FetchOutcome.err m, [directRequest username token, proxyRequest username]) := by
  simp only [fetchUserReadme]
  rw [h]
  simp only [hok, Bool.not_false, if_true]
  rw [if_neg (by simp [h403]), if_neg (by simp [h404]), hp]
  simp only [hok2, Bool.not_true, if_false]
  rw [hj]
  rfl

theorem fetchUserReadme_fallback_ok (env : FetchEnv) (username : String)
    (token : Option String) (r r2 : HttpResponse) (c : String)
    (h : env.fetch (directRequest username token) = Except.ok r) (hok : r.ok = false)
    (h403 : r.status ≠ 403) (h404 : r.status ≠ 404)
    (hp : env.fetch (proxyRequest username) = Except.ok r2) (hok2 : r2.ok = true)
    (hj : r2.jsonContents = Except.ok c) :
    fetchUserReadme env username token =
      (FetchOutcome.ok c, [directRequest username token, proxyRequest username]) := by
  simp only [fetchUserReadme]
  rw [h]
  simp only [hok, Bool.not_false, if_true]
  rw [if_neg (by simp [h403]), if_neg (by simp [h404]), hp]
  simp only [hok2, Bool.not_true, if_false]
  rw [hj]
  rfl

theorem validateUser_of_ne (env : FetchEnv) (u : String) (t : Option String)
    (hne : jsTrim u ≠ "") :
    validateUser env u t =
      (match fetchUserReadme env (jsTrim u) t with
       | (FetchOutcome.err e, reqs) =>
         ({ username := jsTrim u, status := Status.error, details := e }, reqs)
       | (FetchOutcome.ok content, reqs) => (contentResult (jsTrim u) content, reqs)) := by
  simp only [validateUser]
  rw [if_neg (by simp [hne])]

theorem validateUser_of_empty (env : FetchEnv) (u : String) (t : Option String)
    (he : jsTrim u = "") :
    validateUser env u t =
      ({ username := jsTrim u, status := Status.error, details := "Invalid username" }, []) := by
  simp only [validateUser]
  rw [if_pos (by simp [he])]

theorem charsContain_iff (pat : List Char) :
    ∀ l, charsContain pat l = true ↔ pat <:+: l := by
  intro l
  induction l with
  | nil =>
    simp [charsContain, List.isEmpty_iff, List.infix_nil]
  | cons a rest ih =>
    simp [charsContain, Bool.or_eq_true, List.isPrefixOf_iff_prefix, ih,
      List.infix_cons_iff]

theorem checkCompletion_iff (content : String) :
    checkCompletion content = true ↔ COMPLETION_PHRASE.toList <:+: content.toList :=
  charsContain_iff COMPLETION_PHRASE.toList content.toList

theorem contentResult_eq_if (v body : String) :
    contentResult v body =
      (if checkCompletion body then
        ({ username := v, status := Status.completed,
           details := "Exercise completed successfully" } : ValidationResult)
       else
        { username := v, status := Status.not_completed,
          details := "Completion phrase not found" }) := by
  unfold contentResult
  by_cases hc : checkCompletion body <;> simp [hc]

theorem fetchUserReadme_requests (env : FetchEnv) (username : String)
    (token : Option String) :
    (fetchUserReadme env username token).2 = [directRequest username token] ∨
    (fetchUserReadme env username token).2 =
      [directRequest username token, proxyRequest username] := by
  cases hd : env.fetch (directRequest username token) with
  | error m => rw [fetchUserReadme_direct_throw env username token m hd]; left; rfl
  | ok r =>
    cases hok : r.ok with
    | true => rw [fetchUserReadme_direct_ok env username token r hd hok]; left; rfl
    | false =>
      by_cases h403 : r.status = 403
      · rw [fetchUserReadme_403 env username token r hd h403]; left; rfl
      · by_cases h404 : r.status = 404
        · rw [fetchUserReadme_404 env username token r hd h404]; left; rfl
        · cases hp : env.fetch (proxyRequest username) with
          | error m2 =>
            rw [fetchUserReadme_fallback_throw env username token r m2 hd hok h403 h404 hp]
            right; rfl
          | ok r2 =>
            cases hok2 : r2.ok with
            | false =>
              rw [fetchUserReadme_fallback_notOk env username token r r2 hd hok h403 h404
                hp hok2]
              right; rfl
            | true =>
              cases hj : r2.jsonContents with
              | error m3 =>
                rw [fetchUserReadme_fallback_badJson env username token r r2 m3 hd hok h403
                  h404 hp hok2 hj]
                right; rfl
              | ok c =>
                rw [fetchUserReadme_fallback_ok env username token r r2 c hd hok h403 h404
                  hp hok2 hj]
                right; rfl

/-- Claim C1: for every environment, username and token, validateUser
returns exactly one ValidationResult whose status lies in the closed set
(completed, not-completed, error), and every exception thrown during the
direct fetch, the fallback fetch or the parsing of the fallback JSON
body is caught and converted into a result with status error whose
details field is the exception message. -/
theorem validateUser_status_closed_and_catches (env : FetchEnv) (u : String)
    (t : Option String) :
    ((validateUser env u t).1.status = Status.completed ∨
     (validateUser env u t).1.status = Status.not_completed ∨
     (validateUser env u t).1.status = Status.error) ∧
    (∀ m, jsTrim u ≠ "" →
      env.fetch (directRequest (jsTrim u) t) = Except.error m →
      (validateUser env u t).1 =
        { username := jsTrim u, status := Status.error, details := m }) ∧
    (∀ r m, jsTrim u ≠ "" →
      env.fetch (directRequest (jsTrim u) t) = Except.ok r →
      r.ok = false → r.status ≠ 403 → r.status ≠ 404 →
      env.fetch (proxyRequest (jsTrim u)) = Except.error m →
      (validateUser env u t).1 =
        { username := jsTrim u, status := Status.error, details := m }) ∧
    (∀ r r2 m, jsTrim u ≠ "" →
      env.fetch (directRequest (jsTrim u) t) = Except.ok r →
      r.ok = false → r.status ≠ 403 → r.status ≠ 404 →
      env.fetch (proxyRequest (jsTrim u)) = Except.ok r2 → r2.ok = true →
      r2.jsonContents = Except.error m →
      (validateUser env u t).1 =
        { username := jsTrim u, status := Status.error, details := m }) := by
  refine ⟨?_, ?_, ?_, ?_⟩
  · rcases hs : (validateUser env u t).1.status <;> simp
  · intro m hne hd
    rw [validateUser_of_ne env u t hne,
      fetchUserReadme_direct_throw env (jsTrim u) t m hd]
  · intro r m hne hd hok h403 h404 hp
    rw [validateUser_of_ne env u t hne,
      fetchUserReadme_fallback_throw env (jsTrim u) t r m hd hok h403 h404 hp]
  · intro r r2 m hne hd hok h403 h404 hp hok2 hj
    rw [validateUser_of_ne env u t hne,
      fetchUserReadme_fallback_badJson env (jsTrim u) t r r2 m hd hok h403 h404 hp
        hok2 hj]

/-- Witness for claim C1 at a concrete environment whose direct fetch
throws: the exception message becomes the details of an error result. -/
theorem validateUser_status_closed_and_catches_witness :
    (validateUser envErr "alice" none).1 =
      { username := "alice", status := Status.error, details := "network" } :=
  (validateUser_status_closed_and_catches envErr "alice" none).2.1 "network"
    (by decide) rfl

/-- Claim C2: validateUsers returns one result per input username, in
input order; the i-th result carries the trimmed i-th input username. -/
theorem validateUsers_length_and_usernames (env : FetchEnv) (usernames : List String)
    (token : Option String) (hasCb : Bool) :
    (validateUsers env usernames token hasCb).1.length = usernames.length ∧
    ∀ i, ((validateUsers env usernames token hasCb).1.get? i).map
        ValidationResult.username = (usernames.get? i).map jsTrim := by
  have hres : (validateUsers env usernames token hasCb).1 =
      usernames.map (fun u => (validateUser env u token).1) := by
    simp only [validateUsers]
    exact go_results env token hasCb usernames.length usernames.length usernames 0
      (Nat.le_refl _)
  constructor
  · rw [hres, List.length_map]
  · intro i
    rw [hres, List.get?_map, Option.map_map]
    have hfun : (ValidationResult.username ∘ fun u => (validateUser env u token).1) =
        jsTrim := funext (fun u => validateUser_fst_username env u token)
    rw [hfun]

/-- Claim C3: the response handling of the Fetcher follows the ordered
decision policy: HTTP success proceeds to the content check; 403 yields
an error result with the rate-limit message; 404 yields an error result
with the not-found message; any other non-success status issues exactly
one fallback request through the proxy, whose JSON contents field is
used as the body on fallback success, and whose non-success HTTP
failure yields an error result naming the status code and reason
phrase. -/
theorem fetchUserReadme_decision_policy (env : FetchEnv) (u : String)
    (t : Option String) (r : HttpResponse) (hne : jsTrim u ≠ "")
    (hdir : env.fetch (directRequest (jsTrim u) t) = Except.ok r) :
    (r.ok = true → validateUser env u t =
      (contentResult (jsTrim u) r.body, [directRequest (jsTrim u) t])) ∧
    (r.status = 403 → validateUser env u t =
      ({ username := jsTrim u, status := Status.error,
         details := "API rate limit exceeded" }, [directRequest (jsTrim u) t])) ∧
    (r.status = 404 → validateUser env u t =
      ({ username := jsTrim u, status := Status.error,
         details := "Repository or README not found" }, [directRequest (jsTrim u) t])) ∧
    (r.ok = false → r.status ≠ 403 → r.status ≠ 404 →
      (validateUser env u t).2 = [directRequest (jsTrim u) t, proxyRequest (jsTrim u)] ∧
      (∀ r2, env.fetch (proxyRequest (jsTrim u)) = Except.ok r2 →
        (r2.ok = true → ∀ c, r2.jsonContents = Except.ok c →
          validateUser env u t =
            (contentResult (jsTrim u) c,
             [directRequest (jsTrim u) t, proxyRequest (jsTrim u)])) ∧
        (r2.ok = false → validateUser env u t =
          ({ username := jsTrim u, status := Status.error,
             details := "HTTP " ++ toString r2.status ++ ": " ++ r2.statusText },
           [directRequest (jsTrim u) t, proxyRequest (jsTrim u)])))) := by
  refine ⟨?_, ?_, ?_, ?_⟩
  · intro hok
    rw [validateUser_of_ne env u t hne,
      fetchUserReadme_direct_ok env (jsTrim u) t r hdir hok]
  · intro h403
    rw [validateUser_of_ne env u t hne,
      fetchUserReadme_403 env (jsTrim u) t r hdir h403]
    rfl
  · intro h404
    rw [validateUser_of_ne env u t hne,
      fetchUserReadme_404 env (jsTrim u) t r hdir h404]
  · intro hok h403 h404
    constructor
    · rw [validateUser_of_ne env u t hne]
      cases hp : env.fetch (proxyRequest (jsTrim u)) with
      | error m =>
        rw [fetchUserReadme_fallback_throw env (jsTrim u) t r m hdir hok h403 h404 hp]
      | ok r2 =>
        cases hok2 : r2.ok with
        | false =>
          rw [fetchUserReadme_fallback_notOk env (jsTrim u) t r r2 hdir hok h403 h404
            hp hok2]
        | true =>
          cases hj : r2.jsonContents with
          | error m3 =>
            rw [fetchUserReadme_fallback_badJson env (jsTrim u) t r r2 m3 hdir hok h403
              h404 hp hok2 hj]
          | ok c =>
            rw [fetchUserReadme_fallback_ok env (jsTrim u) t r r2 c hdir hok h403 h404
              hp hok2 hj]
    · intro r2 hp
      constructor
      · intro hok2 c hj
        rw [validateUser_of_ne env u t hne,
          fetchUserReadme_fallback_ok env (jsTrim u) t r r2 c hdir hok h403 h404 hp
            hok2 hj]
      · intro hok2
        rw [validateUser_of_ne env u t hne,
          fetchUserReadme_fallback_notOk env (jsTrim u) t r r2 hdir hok h403 h404 hp
            hok2]

/-- Witness for claim C3 at a concrete environment replying 403 to the
direct request: the result is the rate-limit error result. -/
theorem fetchUserReadme_decision_policy_witness :
    validateUser env403 "alice" none =
      ({ username := "alice", status := Status.error,
         details := "API rate limit exceeded" }, [directRequest "alice" none]) :=
  (fetchUserReadme_decision_policy env403 "alice" none
    { status := 403, statusText := "Forbidden", body := "",
      jsonContents := Except.error "bad json" } (by decide) rfl).2.1 rfl

/-- Claim C4: the content check is an exact case-sensitive substring
match for the fixed marker: checkCompletion holds exactly when the
marker occurs in the body; on the success path the result is completed
with the success details when the marker occurs and not-completed with
the not-found details otherwise; a body differing from the marker only
in letter case is rejected while the marker itself is accepted. -/
theorem checkCompletion_exact_marker :
    (∀ body : String,
      checkCompletion body = true ↔ COMPLETION_PHRASE.toList <:+: body.toList) ∧
    (∀ (env : FetchEnv) (u : String) (t : Option String) (r : HttpResponse),
      jsTrim u ≠ "" → env.fetch (directRequest (jsTrim u) t) = Except.ok r →
      r.ok = true →
      (validateUser env u t).1 =
        (if checkCompletion r.body then
          ({ username := jsTrim u, status := Status.completed,
             details := "Exercise completed successfully" } : ValidationResult)
         else
          { username := jsTrim u, status := Status.not_completed,
            details := "Completion phrase not found" })) ∧
    checkCompletion lowercaseMarker = false ∧
    checkCompletion COMPLETION_PHRASE = true := by
  refine ⟨?_, ?_, ?_, ?_⟩
  · exact checkCompletion_iff
  · intro env u t r hne hd hok
    rw [validateUser_of_ne env u t hne,
      fetchUserReadme_direct_ok env (jsTrim u) t r hd hok]
    exact contentResult_eq_if (jsTrim u) r.body
  · decide
  · decide

/-- Witness for claim C4: a direct success whose body is exactly the
marker yields a completed result with the success details. -/
theorem checkCompletion_exact_marker_witness :
    (validateUser envOk "alice" none).1 =
      { username := "alice", status := Status.completed,
        details := "Exercise completed successfully" } := by
  have h := checkCompletion_exact_marker.2.1 envOk "alice" none
    { status := 200, statusText := "OK", body := COMPLETION_PHRASE,
      jsonContents := Except.ok COMPLETION_PHRASE } (by decide) rfl rfl
  rw [h]
  decide

/-- Claim C5: validateUsers partitions the input into consecutive
slices whose concatenation is the input, every non-final slice has the
batch size, every slice is non-empty and at most the batch size, the
batch size is 10 with a token and 5 without, and 23 usernames give
slice sizes 10, 10, 3 with a token and 5, 5, 5, 5, 3 without. -/
theorem validateUsers_batch_partition (env : FetchEnv) (usernames : List String)
    (token : Option String) (hasCb : Bool) :
    (batchesIn (validateUsers env usernames token hasCb).2.1).flatten = usernames ∧
    (∀ b ∈ (batchesIn (validateUsers env usernames token hasCb).2.1).dropLast,
      b.length = batchSize token) ∧
    (∀ b ∈ batchesIn (validateUsers env usernames token hasCb).2.1,
      b ≠ [] ∧ b.length ≤ batchSize token) ∧
    batchSize (some "tok") = 10 ∧ batchSize none = 5 ∧
    (batchesIn (validateUsers envErr (List.replicate 23 "u") (some "tok")
      false).2.1).map List.length = [10, 10, 3] ∧
    (batchesIn (validateUsers envErr (List.replicate 23 "u") none
      false).2.1).map List.length = [5, 5, 5, 5, 3] := by
  refine ⟨?_, ?_, ?_, by decide, by decide, by decide, by decide⟩
  · exact go_batches_flatten env token hasCb usernames.length usernames.length
      usernames 0 (Nat.le_refl _)
  · exact go_batches_dropLast env token hasCb usernames.length usernames.length
      usernames 0 (Nat.le_refl _)
  · exact go_batches_mem env token hasCb usernames.length usernames.length
      usernames 0 (Nat.le_refl _)

/-- Witness for claim C5: the single batch of a one-element run is
non-empty and no larger than the tokenless batch size. -/
theorem validateUsers_batch_partition_witness :
    (["a"] : List String) ≠ [] ∧ (["a"] : List String).length ≤ batchSize none :=
  (validateUsers_batch_partition envErr ["a"] none false).2.2.1 ["a"] (by decide)

/-- Claim C6: with a supplied callback and a non-empty input, the
progress callback runs exactly once per batch, its first arguments are
strictly increasing, every second argument is the input length, the
final first argument is the input length, and every delay event comes
immediately after a progress invocation. -/
theorem validateUsers_progress_reporting (env : FetchEnv) (usernames : List String)
    (token : Option String) (hne : usernames ≠ []) :
    (progressCurrents (validateUsers env usernames token true).2.1).length =
      (batchesIn (validateUsers env usernames token true).2.1).length ∧
    (progressCurrents (validateUsers env usernames token true).2.1).Pairwise (· < ·) ∧
    (∀ x ∈ progressTotals (validateUsers env usernames token true).2.1,
      x = usernames.length) ∧
    (progressCurrents (validateUsers env usernames token true).2.1).getLast? =
      some usernames.length ∧
    chkDelays (validateUsers env usernames token true).2.1 = true := by
  refine ⟨?_, ?_, ?_, ?_, ?_⟩
  · exact go_progress_count env token usernames.length usernames.length usernames 0
  · exact go_progressCurrents_pairwise env token usernames.length usernames.length
      usernames 0 (Nat.le_refl _)
  · exact go_progressTotals_mem env token usernames.length usernames.length
      usernames 0
  · have h := go_progressCurrents_getLast env token usernames.length usernames.length
      usernames 0 hne (Nat.le_refl _)
    rw [Nat.zero_add] at h
    exact h
  · exact go_chkDelays env token usernames.length usernames.length usernames 0
      (Nat.le_refl _)

/-- Witness for claim C6 on a concrete three-element run without a
token: the last progress first argument is the input length. -/
theorem validateUsers_progress_reporting_witness :
    (progressCurrents (validateUsers envErr ["a", "b", "c"] none true).2.1).getLast? =
      some (["a", "b", "c"] : List String).length :=
  (validateUsers_progress_reporting envErr ["a", "b", "c"] none
    (by decide)).2.2.2.1

/-- Claim C7: a username that is empty after trimming yields the
invalid-username error result immediately and no request is issued. -/
theorem validateUser_empty_username_no_request (env : FetchEnv) (u : String)
    (t : Option String) (h : jsTrim u = "") :
    validateUser env u t =
      ({ username := "", status := Status.error, details := "Invalid username" }, []) := by
  rw [validateUser_of_empty env u t h, h]

/-- Witness for claim C7 on a whitespace-only username. -/
theorem validateUser_empty_username_no_request_witness :
    validateUser envErr "   " none =
      ({ username := "", status := Status.error, details := "Invalid username" }, []) :=
  validateUser_empty_username_no_request envErr "   " none (by decide)

/-- Claim C8: against a fixed deterministic resource provider, two runs
of validateUser on the same username and token yield identical results:
the outcome depends only on the provider function, username and token. -/
theorem validateUser_deterministic (env1 env2 : FetchEnv) (u : String)
    (t : Option String) (h : ∀ req, env1.fetch req = env2.fetch req) :
    validateUser env1 u t = validateUser env2 u t := by
  cases env1 with
  | mk f1 =>
    cases env2 with
    | mk f2 =>
      have hf : f1 = f2 := funext h
      subst hf
      rfl

/-- Witness for claim C8: two runs against environments with the same
behaviour agree. -/
theorem validateUser_deterministic_witness :
    validateUser envErr "alice" none = validateUser envErrTwin "alice" none :=
  validateUser_deterministic envErr envErrTwin "alice" none (fun _ => rfl)

/-- Claim C9: every request issued by validateUser is either the direct
request (the only one that can carry the Authorization header) or the
proxy request, which is built from the username alone and carries no
header, so the token never reaches the proxy. -/
theorem token_never_sent_to_proxy (env : FetchEnv) (u : String) (t : Option String) :
    ∀ req ∈ (validateUser env u t).2,
      req = directRequest (jsTrim u) t ∨
      (req = proxyRequest (jsTrim u) ∧ req.authHeader = none) := by
  by_cases hne : jsTrim u = ""
  · rw [validateUser_of_empty env u t hne]
    intro req hreq
    simp at hreq
  · rw [validateUser_of_ne env u t hne]
    have hreqs := fetchUserReadme_requests env (jsTrim u) t
    rcases hfr : fetchUserReadme env (jsTrim u) t with ⟨out, reqs⟩
    rw [hfr] at hreqs
    have hsub : ∀ req ∈ reqs,
        req = directRequest (jsTrim u) t ∨
        (req = proxyRequest (jsTrim u) ∧ req.authHeader = none) := by
      intro req hreq
      rcases hreqs with hr | hr
      · have hr2 : reqs = [directRequest (jsTrim u) t] := hr
        rw [hr2] at hreq
        exact Or.inl (List.mem_singleton.mp hreq)
      · have hr2 : reqs = [directRequest (jsTrim u) t, proxyRequest (jsTrim u)] := hr
        rw [hr2] at hreq
        rcases List.mem_cons.mp hreq with h1 | h1
        · exact Or.inl h1
        · have h2 := List.mem_singleton.mp h1
          exact Or.inr ⟨h2, by rw [h2]; rfl⟩
    cases out with
    | err e => exact hsub
    | ok content => exact hsub

/-- Witness for claim C9 on an environment that forces the fallback:
the second issued request is the proxy request and has no header. -/
theorem token_never_sent_to_proxy_witness :
    proxyRequest "alice" = directRequest "alice" none ∨
    (proxyRequest "alice" = proxyRequest "alice" ∧
      (proxyRequest "alice").authHeader = none) :=
  token_never_sent_to_proxy envFallback "alice" none (proxyRequest "alice")
    (by decide)

/-- Claim C10: on the empty input list validateUsers returns no
results, records no events (so the progress callback never runs and no
delay occurs) and issues no requests (so the Fetcher is never
invoked). -/
theorem validateUsers_empty_input (env : FetchEnv) (token : Option String)
    (hasCb : Bool) :
    (validateUsers env [] token hasCb).1 = [] ∧
    (validateUsers env [] token hasCb).2.1 = [] ∧
    (validateUsers env [] token hasCb).2.2 = [] :=
  ⟨rfl, rfl, rfl⟩
